import Mathlib

/-!
Verification of the shepherd repository manager against its specification.

The development shallowly embeds the three source files (`config.rs`,
`lib.rs`, `main.rs`). Filesystem state is explicit (`FileSys`), the
external `git` client is a parameter returning an exit code, and terminal
output is a list of events.
-/

set_option linter.all false

/-- The command variants of `lib.rs` (`enum Cmd`). -/
inductive Cmd
| Add
| Help
| Fetch
| List
| DumpConfig
deriving DecidableEq

/-- A repository entry. The snapshot of `config.rs` predates the
`category` field, but `lib.rs` constructs entries with
`Repository::new(name, url, category)` and reads `repo.category`, so the
struct carried by the running program has all three fields.
Equality is Rust's derived `PartialEq`: all fields compared. -/
structure Repository where
  name : String
  url : String
  category : Option String
deriving DecidableEq

/-- Rust's `#[derive(PartialEq)]` on `Repository`: field-wise comparison. -/
def Repository.beq (a b : Repository) : Bool :=
  a.name == b.name && a.url == b.url && a.category == b.category

instance repoBEq : BEq Repository := ⟨Repository.beq⟩

/-- The three-argument constructor invoked by `run` in `lib.rs`. -/
def Repository.new (name url : String) (category : Option String) : Repository :=
  { name := name, url := url, category := category }

/-- `struct Config` of `config.rs`: `config_location` is `#[serde(skip)]`
(runtime only, defaults to the empty string), `source_dir` and
`repositories` are the serialisable fields. -/
structure Config where
  config_location : String
  source_dir : String
  repositories : List Repository
deriving DecidableEq

/-- The serialisable part of a `Config`: exactly the fields the persisted
TOML document carries (`config_location` is skipped). -/
structure ConfigDoc where
  source_dir : String
  repositories : List Repository
deriving DecidableEq

/-- Modelled from the spec: the persisted text produced by the external
`toml` crate (the crate is not part of this repository). Section 4.1 of
the spec delegates the exact grammar to the crate and requires only that
all fields except `config_location` round-trip and that a pretty form
exists, so the text is abstracted to its parsed document together with
the formatting mode. `toml::to_string` and `toml::to_string_pretty` are
distinct renderings of the same document (for example the pretty
serialiser emits multi-line literal strings), kept apart by the
constructor. -/
inductive TomlText
| basic (doc : ConfigDoc)
| pretty (doc : ConfigDoc)
deriving DecidableEq

/-- Modelled from the spec: `toml::to_string(&config)`. Serialising this
document shape cannot fail, so the `Result` is elided. -/
def tomlToString (c : Config) : TomlText :=
  TomlText.basic { source_dir := c.source_dir, repositories := c.repositories }

/-- Modelled from the spec: `toml::to_string_pretty(&config)`. -/
def tomlToStringPretty (c : Config) : TomlText :=
  TomlText.pretty { source_dir := c.source_dir, repositories := c.repositories }

/-- Modelled from the spec: `toml::from_str` on a well-formed persisted
document. The `#[serde(skip)]` field `config_location` deserialises to
its default, the empty string. -/
def tomlFromStr : TomlText → Config
| TomlText.basic d =>
    { config_location := "", source_dir := d.source_dir, repositories := d.repositories }
| TomlText.pretty d =>
    { config_location := "", source_dir := d.source_dir, repositories := d.repositories }

/-- Split a character list into its non-empty `/`-separated components,
accumulating the current component in reverse. -/
def compsAux : List Char → List Char → List (List Char)
| acc, [] => if acc = [] then [] else [acc.reverse]
| acc, c :: rest =>
  if c = '/' then
    (if acc = [] then compsAux [] rest else acc.reverse :: compsAux [] rest)
  else compsAux (c :: acc) rest

/-- The non-empty path components of a character list. -/
def comps (cs : List Char) : List (List Char) := compsAux [] cs

/-- Whether a path (as characters) is absolute, i.e. begins with `/`. -/
def isAbsL : List Char → Bool
| [] => false
| c :: _ => c = '/'

/-- Render an absolute flag and a component list back into a path string. -/
def renderPath (abs : Bool) (cs : List (List Char)) : String :=
  (if abs then "/" else "") ++ String.intercalate "/" (cs.map (fun c => String.mk c))

/-- Canonical form of a path: duplicate and trailing separators removed.
POSIX resolves such spellings to the same filesystem object, so the
model keys its filesystem on this form. -/
def normPath (p : String) : String := renderPath (isAbsL p.data) (comps p.data)

/-- Modelled from the spec: Rust's `Path::parent`. `None` for the empty
path and for the root; otherwise the path without its final component
(`Some ""` for a bare relative filename). -/
def parentPath (p : String) : Option String :=
  if comps p.data = [] then none
  else some (renderPath (isAbsL p.data) (comps p.data).dropLast)

/-- Every prefix of a path's component chain, rendered: the directories
`fs::create_dir_all` ensures, innermost last. -/
def ancestors (p : String) : List String :=
  (List.range (comps p.data).length).map
    (fun k => renderPath (isAbsL p.data) ((comps p.data).take (k + 1)))

/-- Two path strings denote the same filesystem object: equal component
lists and equal absoluteness. -/
def pathEq (p q : String) : Prop :=
  comps p.data = comps q.data ∧ isAbsL p.data = isAbsL q.data

instance (p q : String) : Decidable (pathEq p q) := by
  unfold pathEq
  infer_instance

/-- Modelled from the spec: the I/O error causes the filesystem model can
produce (`std::io::Error` values). -/
inductive IoErr
| invalidPath (p : String)
| notAFile (p : String)
| obstructed (p : String)
deriving DecidableEq

/-- The display text of an I/O error (`eprintln!("{}", e)` payload). -/
def IoErr.msg : IoErr → String
| IoErr.invalidPath p => "No such file or directory: " ++ p
| IoErr.notAFile p => "Not a regular file: " ++ p
| IoErr.obstructed p => "File exists: " ++ p

/-- The error taxonomy of the spec (section 7). The source returns
`Box<dyn Error>`; the constructors classify which underlying failure
produced it. `stateError` exists to state the spec's save precondition;
the source never produces it. -/
inductive ConfigErr
| ioError (e : IoErr)
| parseError
| serializeError
| stateError
deriving DecidableEq

/-- Modelled from the spec: the filesystem visible to the program. Files
map normalised paths to persisted documents (newest binding first), and
`dirs` lists the directories that exist. -/
structure FileSys where
  files : List (String × TomlText)
  dirs : List String
deriving DecidableEq

/-- Look up the newest content bound to a file key. -/
def lookupFile (k : String) (files : List (String × TomlText)) : Option TomlText :=
  (files.find? (fun pr => pr.1 == k)).map (fun pr => pr.2)

/-- Modelled from the spec: `Path::new(p).exists()` — true when any
filesystem object (file or directory) is at `p`. -/
def pathExists (p : String) (fs : FileSys) : Bool :=
  (lookupFile (normPath p) fs.files).isSome || fs.dirs.contains (normPath p)

/-- Modelled from the spec: `fs::write(p, content)` — full overwrite of
the file at `p`. Writing to the empty path fails (ENOENT). -/
def writeFile (p : String) (content : TomlText) (fs : FileSys) : Except IoErr FileSys :=
  if p = "" then Except.error (IoErr.invalidPath p)
  else Except.ok { fs with files := (normPath p, content) :: fs.files }

/-- Modelled from the spec: `fs::create_dir_all(p)` — creates `p` and
every missing ancestor, a no-op on the empty path, failing when an
existing regular file occupies `p` or an ancestor. -/
def createDirAll (p : String) (fs : FileSys) : Except IoErr FileSys :=
  if (ancestors p).any (fun a => (lookupFile a fs.files).isSome) then
    Except.error (IoErr.obstructed p)
  else Except.ok { fs with dirs := ancestors p ++ fs.dirs }

/-- `Config::new` of `config.rs`: `source_dir` defaults to
`$HOME/sources`, empty repositories, unset location. -/
def Config.new (home : String) : Config :=
  { config_location := "", source_dir := home ++ "/sources", repositories := [] }

/-- `Config::read_config` of `config.rs`. If the file exists it is read
and parsed and `*self` is replaced wholesale (so the parsed struct's
skipped `config_location` is the default) before `config_location` is
set to `filename`. Otherwise the current struct is serialised, the
parent directory chain is created (`unwrap` — a failure panics, modelled
as an error result since it is a non-success outcome) and the text is
written (`expect`, likewise). -/
def Config.readConfig (c : Config) (filename : String) (fs : FileSys) :
    Except ConfigErr (Config × FileSys) :=
  if pathExists filename fs then
    match lookupFile (normPath filename) fs.files with
    | none => Except.error (ConfigErr.ioError (IoErr.notAFile filename))
    | some raw =>
        Except.ok ({ tomlFromStr raw with config_location := filename }, fs)
  else
    match createDirAll ((parentPath filename).getD filename) fs with
    | Except.error e => Except.error (ConfigErr.ioError e)
    | Except.ok fs1 =>
        match writeFile filename (tomlToString c) fs1 with
        | Except.error e => Except.error (ConfigErr.ioError e)
        | Except.ok fs2 =>
            Except.ok ({ c with config_location := filename }, fs2)

/-- `Config::save_config` of `config.rs`: serialise with
`toml::to_string` (the plain serialiser) and write to
`config_location`. There is no precondition check. -/
def Config.saveConfig (c : Config) (fs : FileSys) : Except ConfigErr FileSys :=
  match writeFile c.config_location (tomlToString c) fs with
  | Except.error e => Except.error (ConfigErr.ioError e)
  | Except.ok fs1 => Except.ok fs1

/-- `Config::to_string` of `config.rs` (the dump form):
`toml::to_string_pretty`. -/
def Config.toString (c : Config) : TomlText := tomlToStringPretty c

/-- Terminal and process events emitted while a command runs: stdout
lines, stderr lines, and external `git` invocations with the argument
vector and the observed exit code. -/
inductive Event
| out (s : String)
| errMsg (s : String)
| git (args : List String) (exit : Int)
deriving DecidableEq

/-- The argument vectors of the git invocations among a list of events. -/
def gitCalls (evs : List Event) : List (List String) :=
  evs.filterMap (fun e =>
    match e with
    | Event.git a _ => some a
    | _ => none)

/-- The `path` variable of `fetch_repos` in `lib.rs`: the category
directory, with the trailing separator the `format!` string appends. -/
def pathOf (srcDir : String) (r : Repository) : String :=
  match r.category with
  | some x => srcDir ++ "/" ++ x ++ "/"
  | none => srcDir

/-- The `fullpath` variable of `fetch_repos` in `lib.rs`. -/
def fullpathOf (srcDir : String) (r : Repository) : String :=
  pathOf srcDir r ++ "/" ++ r.name

/-- The argument vector `["-C", fullpath, "fetch", "--all"]` of the
fetch branch of `fetch_repos`. -/
def fetchArgv (srcDir : String) (r : Repository) : List String :=
  ["-C", fullpathOf srcDir r, "fetch", "--all"]

/-- The argument vector `["-C", path, "clone", url, name]` of the clone
branch of `fetch_repos`. -/
def cloneArgv (srcDir : String) (r : Repository) : List String :=
  ["-C", pathOf srcDir r, "clone", r.url, r.name]

/-- The directory the spec says sync targets for an entry: `S/C/n` when
the category `C` is present and `S/n` otherwise (spec section 8, P6). -/
def specTarget (srcDir : String) (r : Repository) : String :=
  match r.category with
  | some c => srcDir ++ "/" ++ c ++ "/" ++ r.name
  | none => srcDir ++ "/" ++ r.name

/-- The parent directory the spec says the clone invocation changes
into: `S/C` when the category is present and `S` otherwise. -/
def specParent (srcDir : String) (r : Repository) : String :=
  match r.category with
  | some c => srcDir ++ "/" ++ c
  | none => srcDir

/-- The body of the per-repository loop of `fetch_repos` in `lib.rs`.
When `fullpath` is an existing directory the announcement is printed and
`git -C fullpath fetch --all` runs; otherwise the two announcements are
printed, the category directory is ensured (an error is printed to
stderr and the entry continues), the path is printed and
`git -C path clone url name` runs. The external client is `git`, a
function from the argument vector to the exit code it returns; a
non-zero code is not inspected. -/
def fetchOne (git : List String → Int) (srcDir : String) (fs : FileSys) (r : Repository) :
    FileSys × List Event :=
  if fs.dirs.contains (normPath (fullpathOf srcDir r)) then
    (fs, [Event.out ("=== FETCHING " ++ r.name ++ " ==="),
          Event.git (fetchArgv srcDir r) (git (fetchArgv srcDir r))])
  else
    match createDirAll (pathOf srcDir r) fs with
    | Except.error e =>
        (fs, [Event.out ("=== " ++ r.name ++ " doesn\x27t exist locally ==="),
              Event.out ("=== CLONING " ++ r.name ++ " ==="),
              Event.errMsg e.msg,
              Event.out (pathOf srcDir r),
              Event.git (cloneArgv srcDir r) (git (cloneArgv srcDir r))])
    | Except.ok fs1 =>
        (fs1, [Event.out ("=== " ++ r.name ++ " doesn\x27t exist locally ==="),
               Event.out ("=== CLONING " ++ r.name ++ " ==="),
               Event.out (pathOf srcDir r),
               Event.git (cloneArgv srcDir r) (git (cloneArgv srcDir r))])

/-- The loop of `fetch_repos`: every entry is processed in declared
order, threading the filesystem. -/
def fetchLoop (git : List String → Int) (srcDir : String) :
    FileSys → List Repository → FileSys × List Event
| fs, [] => (fs, [])
| fs, r :: rs =>
  ((fetchLoop git srcDir (fetchOne git srcDir fs r).1 rs).1,
   (fetchOne git srcDir fs r).2 ++ (fetchLoop git srcDir (fetchOne git srcDir fs r).1 rs).2)

/-- `fetch_repos` of `lib.rs`: ensure `source_dir` exists (an error is
printed to stderr and execution continues), then run the loop. The
function always returns. -/
def fetchRepos (git : List String → Int) (c : Config) (fs : FileSys) : FileSys × List Event :=
  match createDirAll c.source_dir fs with
  | Except.error e =>
      ((fetchLoop git c.source_dir fs c.repositories).1,
       Event.errMsg e.msg :: (fetchLoop git c.source_dir fs c.repositories).2)
  | Except.ok fs1 =>
      ((fetchLoop git c.source_dir fs1 c.repositories).1,
       (fetchLoop git c.source_dir fs1 c.repositories).2)

/-- The dedup-append core of the `Cmd::Add` branch of `run` in `lib.rs`
(the spec's `add(entry) → bool`): append iff `find` locates no equal
entry, and report whether the entry was newly added. -/
def addRepo (c : Config) (repo : Repository) : Bool × Config :=
  match c.repositories.find? (fun x => x == repo) with
  | none => (true, { c with repositories := c.repositories ++ [repo] })
  | some _ => (false, c)

/-- The application state built by argument parsing (`struct State` of
`lib.rs`). -/
structure State where
  cmd : Option Cmd
  url : Option String
  name : Option String
  category : Option String
  config : String
deriving DecidableEq

/-- The initial state of `State::new`: no command, no payload, the
default configuration path under `$HOME`. -/
def initState (home : String) : State :=
  { cmd := none, url := none, name := none, category := none,
    config := home ++ "/.config/shepherd/config.toml" }

/-- The `Cmd::Add` branch of `run` in `lib.rs`: build the entry from the
parsed state (empty strings when absent), look for an equal entry; when
none is found, push it, persist with `save_config` (whose error
propagates) and print the added message, otherwise print the
already-tracked message and touch nothing. -/
def runAdd (st : State) (c : Config) (fs : FileSys) :
    Except ConfigErr (Config × FileSys × List Event) :=
  match c.repositories.find?
      (fun x => x == Repository.new (st.name.getD "") (st.url.getD "") st.category) with
  | none =>
      match Config.saveConfig
          { c with repositories :=
              c.repositories ++ [Repository.new (st.name.getD "") (st.url.getD "") st.category] }
          fs with
      | Except.error e => Except.error e
      | Except.ok fs1 =>
          Except.ok
            ({ c with repositories :=
                c.repositories ++ [Repository.new (st.name.getD "") (st.url.getD "") st.category] },
             fs1, [Event.out "Repository has been added"])
  | some _ => Except.ok (c, fs, [Event.out "Repository is already being tracked"])

/-- Rust's `str::starts_with` on character lists, by structural
recursion so proofs can evaluate it. -/
def charsStartWith : List Char → List Char → Bool
| _, [] => true
| [], _ :: _ => false
| c :: cs, p :: ps => c == p && charsStartWith cs ps

/-- Rust's `str::starts_with(pat)`. -/
def strStartsWith (s pat : String) : Bool := charsStartWith s.data pat.data

/-- The remainder `str::strip_prefix` leaves once a `k`-character
literal has matched: the string without its first `k` characters. -/
def strDropChars (s : String) (k : Nat) : String := String.mk (s.data.drop k)

/-- The argument loop of `State::new` in `lib.rs`, over the remaining
token list. Long flags are handled first (`--config` consumes the next
token; a missing operand prints a diagnostic and the loop then ends),
then concatenated short flags, then — only when no command has been
chosen — the verbs. The `add` verb consumes its operands directly from
the iterator, coupling `--category`/`-c` to the token right after `add`;
missing operands print a diagnostic and leave the command unset.
Diagnostics to stderr are not tracked here: the parser's observable
outcome is the resulting state. -/
def parseLoop : State → List String → State
| s, [] => s
| s, x :: rest =>
  if strStartsWith x "--" then
    (if strDropChars x 2 = "help" then parseLoop { s with cmd := some Cmd.Help } rest
     else if strDropChars x 2 = "dump-config" then
       parseLoop { s with cmd := some Cmd.DumpConfig } rest
     else if strDropChars x 2 = "config" then
       (match rest with
        | f :: rest2 => parseLoop { s with config := f } rest2
        | [] => s)
     else parseLoop s rest)
  else if strStartsWith x "-" then
    parseLoop
      ((x.data.drop 1).foldl
        (fun st opt => if opt = 'h' then { st with cmd := some Cmd.Help } else st) s)
      rest
  else if s.cmd = none then
    (if x = "add" then
       (match rest with
        | [] => s
        | t :: rest2 =>
          if t = "--category" ∨ t = "-c" then
            (match rest2 with
             | [] => { s with category := none }
             | cv :: rest3 =>
               (match rest3 with
                | [] => { s with category := some cv }
                | nm :: rest4 =>
                  (match rest4 with
                   | [] => { s with category := some cv, name := some nm }
                   | u :: rest5 =>
                     parseLoop
                       { s with category := some cv, name := some nm,
                                cmd := some Cmd.Add, url := some u } rest5)))
          else
            (match rest2 with
             | [] => { s with name := some t }
             | u :: rest3 =>
               parseLoop { s with name := some t, cmd := some Cmd.Add, url := some u } rest3))
     else if x = "fetch" then parseLoop { s with cmd := some Cmd.Fetch } rest
     else if x = "list" then parseLoop { s with cmd := some Cmd.List } rest
     else parseLoop s rest)
  else parseLoop s rest

/-- `State::new` of `lib.rs`: run the loop from the initial state, then
fall back to the help command when none was chosen. -/
def State.new (home : String) (args : List String) : State :=
  { parseLoop (initState home) args with
    cmd := some ((parseLoop (initState home) args).cmd.getD Cmd.Help) }

/-- The instance equality `==` on entries is `Repository.beq`. -/
theorem repoBeq_def (a b : Repository) : (a == b) = Repository.beq a b := rfl

instance : LawfulBEq Repository where
  eq_of_beq := by
    intro a b h
    rw [repoBeq_def, Repository.beq] at h
    simp only [Bool.and_eq_true, beq_iff_eq] at h
    cases a
    cases b
    simp_all
  rfl := by
    intro a
    rw [repoBeq_def, Repository.beq]
    simp

/-- `find?` with the entry-equality predicate finds nothing exactly when
the entry is not an element. -/
theorem find?_beq_none {l : List Repository} {e : Repository} :
    l.find? (fun x => x == e) = none ↔ e ∉ l := by
  rw [List.find?_eq_none]
  constructor
  · intro h hmem
    exact h e hmem (by simp)
  · intro h x hx hbe
    exact h ((eq_of_beq hbe) ▸ hx)

/-- C4 (confirmed): the equality `run` uses to deduplicate entries holds
iff `name`, `url` and `category` all match, where matching categories
includes both being absent. -/
theorem repo_eq_iff_fields (a b : Repository) :
    (a == b) = true ↔ a.name = b.name ∧ a.url = b.url ∧ a.category = b.category := by
  rw [repoBeq_def, Repository.beq]
  simp [Bool.and_eq_true, and_assoc]

/-- Witness for C4 at a concrete pair of entries. -/
theorem repo_eq_iff_fields_w :
    ((Repository.mk "r" "u" (some "c") == Repository.mk "r" "u" (some "c")) = true ↔
      (Repository.mk "r" "u" (some "c")).name = (Repository.mk "r" "u" (some "c")).name ∧
      (Repository.mk "r" "u" (some "c")).url = (Repository.mk "r" "u" (some "c")).url ∧
      (Repository.mk "r" "u" (some "c")).category = (Repository.mk "r" "u" (some "c")).category) :=
  repo_eq_iff_fields (Repository.mk "r" "u" (some "c")) (Repository.mk "r" "u" (some "c"))

/-- C3 (amended): `add(e)` appends `e` iff no equal entry exists and
returns whether it was newly added; when `e` occurs at most once in the
inventory (the data model's uniqueness invariant), two calls of
`add(e)` leave exactly one occurrence and the second call reports that
the repository is already tracked (returns `false`, which `run` prints
as the already-tracked message). -/
theorem add_dedup (c : Config) (e : Repository) :
    ((addRepo c e).1 = true ↔ e ∉ c.repositories) ∧
    ((addRepo c e).2.repositories =
      if e ∈ c.repositories then c.repositories else c.repositories ++ [e]) ∧
    (List.count e c.repositories ≤ 1 →
      List.count e (addRepo (addRepo c e).2 e).2.repositories = 1 ∧
      (addRepo (addRepo c e).2 e).1 = false) := by
  by_cases hm : e ∈ c.repositories
  · have hf : c.repositories.find? (fun x => x == e) ≠ none := by
      simp only [ne_eq, find?_beq_none]
      simpa using hm
    obtain ⟨v, hv⟩ := Option.ne_none_iff_exists'.mp hf
    have hpos : 0 < List.count e c.repositories := List.count_pos_iff.mpr hm
    refine ⟨by simp [addRepo, hv, hm], by simp [addRepo, hv, hm], ?_⟩
    intro hle
    refine ⟨?_, by simp [addRepo, hv]⟩
    simp only [addRepo, hv]
    omega
  · have hf : c.repositories.find? (fun x => x == e) = none := find?_beq_none.mpr hm
    have hz : List.count e c.repositories = 0 := List.count_eq_zero.mpr hm
    have hm2 : e ∈ c.repositories ++ [e] := by simp
    have hf2 : (c.repositories ++ [e]).find? (fun x => x == e) ≠ none := by
      simp only [ne_eq, find?_beq_none]
      simpa using hm2
    obtain ⟨v, hv⟩ := Option.ne_none_iff_exists'.mp hf2
    refine ⟨by simp [addRepo, hf, hm], by simp [addRepo, hf, hm], ?_⟩
    intro _
    refine ⟨?_, by simp [addRepo, hf, hv]⟩
    simp only [addRepo, hf, hv]
    simp [hz]

/-- Witness for C3 at a concrete inventory and entry. -/
theorem add_dedup_w :
    List.count (Repository.mk "r" "u" none)
        [Repository.mk "r" "u" none] ≤ 1 ∧
    List.count (Repository.mk "r" "u" none)
      (addRepo (addRepo (Config.mk "" "/h/sources" []) (Repository.mk "r" "u" none)).2
        (Repository.mk "r" "u" none)).2.repositories = 1 :=
  ⟨by decide,
   ((add_dedup (Config.mk "" "/h/sources" []) (Repository.mk "r" "u" none)).2.2 (by decide)).1⟩

/-- Counterexample for C3 as frozen: an inventory that already holds the
entry twice (such inventories load from a hand-edited file unimpeded)
still holds it twice after two `add` calls, not exactly once. -/
theorem add_dedup_cex :
    List.count (Repository.mk "r" "u" none)
      (addRepo (addRepo
          (Config.mk "" "/h/sources" [Repository.mk "r" "u" none, Repository.mk "r" "u" none])
          (Repository.mk "r" "u" none)).2
        (Repository.mk "r" "u" none)).2.repositories = 2 := by decide

/-- C10 (confirmed): dispatching Add with an entry equal to one already
present leaves the in-memory repositories and the filesystem (hence the
persisted file, byte for byte) unchanged — `save_config` is not reached
— and prints only the already-tracked message. -/
theorem duplicate_add_frame (st : State) (c : Config) (fs : FileSys)
    (h : Repository.new (st.name.getD "") (st.url.getD "") st.category ∈ c.repositories) :
    runAdd st c fs = Except.ok (c, fs, [Event.out "Repository is already being tracked"]) := by
  have hf : c.repositories.find?
      (fun x => x == Repository.new (st.name.getD "") (st.url.getD "") st.category) ≠ none := by
    simp only [ne_eq, find?_beq_none]
    simpa using h
  obtain ⟨v, hv⟩ := Option.ne_none_iff_exists'.mp hf
  simp [runAdd, hv]

/-- Witness for C10: a duplicate add on a concrete state touches nothing. -/
theorem duplicate_add_frame_w :
    runAdd (State.mk (some Cmd.Add) (some "u") (some "r") none "cfg.toml")
        (Config.mk "cfg.toml" "/s" [Repository.mk "r" "u" none]) (FileSys.mk [] []) =
      Except.ok (Config.mk "cfg.toml" "/s" [Repository.mk "r" "u" none], FileSys.mk [] [],
        [Event.out "Repository is already being tracked"]) :=
  duplicate_add_frame (State.mk (some Cmd.Add) (some "u") (some "r") none "cfg.toml")
    (Config.mk "cfg.toml" "/s" [Repository.mk "r" "u" none]) (FileSys.mk [] []) (by decide)

/-- Looking a key up right after binding it yields the new content. -/
theorem lookupFile_cons_self (k : String) (v : TomlText) (l : List (String × TomlText)) :
    lookupFile k ((k, v) :: l) = some v := by
  simp [lookupFile, List.find?_cons_of_pos]

/-- Reading a config file that exists parses its content, replaces the
struct wholesale and then sets the location. -/
theorem readConfig_found (c0 : Config) (filename : String) (fs : FileSys) (raw : TomlText)
    (hex : pathExists filename fs = true)
    (hlk : lookupFile (normPath filename) fs.files = some raw) :
    Config.readConfig c0 filename fs =
      Except.ok ({ tomlFromStr raw with config_location := filename }, fs) := by
  unfold Config.readConfig
  rw [if_pos hex, hlk]

/-- C1 (confirmed): saving an inventory whose location is set and then
loading the same path into a freshly constructed default yields an
inventory with the same serialisable fields. -/
theorem save_load_roundtrip (home : String) (c : Config) (fs : FileSys)
    (h : c.config_location ≠ "") :
    ∃ fs1, Config.saveConfig c fs = Except.ok fs1 ∧
      ∃ c2, Config.readConfig (Config.new home) c.config_location fs1 =
          Except.ok (c2, fs1) ∧
        c2.source_dir = c.source_dir ∧ c2.repositories = c.repositories := by
  refine ⟨FileSys.mk ((normPath c.config_location, tomlToString c) :: fs.files) fs.dirs,
    by simp [Config.saveConfig, writeFile, h], ?_⟩
  have hlk := lookupFile_cons_self (normPath c.config_location) (tomlToString c) fs.files
  have hex : pathExists c.config_location
      (FileSys.mk ((normPath c.config_location, tomlToString c) :: fs.files) fs.dirs) = true := by
    simp [pathExists, hlk]
  exact ⟨_, readConfig_found (Config.new home) c.config_location _ _ hex hlk, rfl, rfl⟩

/-- Witness for C1 at a concrete inventory. -/
theorem save_load_roundtrip_w :
    ∃ fs1, Config.saveConfig
        (Config.mk "cfg.toml" "/s" [Repository.mk "r" "u" (some "c")]) (FileSys.mk [] []) =
        Except.ok fs1 ∧
      ∃ c2, Config.readConfig (Config.new "/h") "cfg.toml" fs1 = Except.ok (c2, fs1) ∧
        c2.source_dir = "/s" ∧ c2.repositories = [Repository.mk "r" "u" (some "c")] :=
  save_load_roundtrip "/h" (Config.mk "cfg.toml" "/s" [Repository.mk "r" "u" (some "c")])
    (FileSys.mk [] []) (by decide)

/-- Counterexample for C7 as frozen: with `config_location` unset the
save does fail, but with the I/O error of writing to the empty path —
no `StateError` is produced; the source has no precondition check. -/
theorem save_unset_cex :
    Config.saveConfig (Config.mk "" "/h/sources" []) (FileSys.mk [] []) =
      Except.error (ConfigErr.ioError (IoErr.invalidPath "")) ∧
    ConfigErr.ioError (IoErr.invalidPath "") ≠ ConfigErr.stateError :=
  ⟨rfl, by decide⟩

/-- C7 (amended): saving with `config_location` unset fails — with the
IoError of writing the empty path, not a StateError — and every save
failure is an IoError (serialising this document shape cannot fail). -/
theorem save_unset_fails (c : Config) (fs : FileSys) (h : c.config_location = "") :
    Config.saveConfig c fs = Except.error (ConfigErr.ioError (IoErr.invalidPath "")) ∧
    ∀ (c2 : Config) (fs2 : FileSys) (e : ConfigErr),
      Config.saveConfig c2 fs2 = Except.error e → ∃ io, e = ConfigErr.ioError io := by
  constructor
  · simp [Config.saveConfig, writeFile, h]
  · intro c2 fs2 e he
    rw [Config.saveConfig] at he
    cases hw : writeFile c2.config_location (tomlToString c2) fs2 with
    | error e2 =>
        rw [hw] at he
        exact ⟨e2, (Except.error.injEq _ _).mp he.symm⟩
    | ok fs3 =>
        rw [hw] at he
        exact absurd he (by simp)

/-- Witness for C7's amended statement at a concrete inventory. -/
theorem save_unset_fails_w :
    Config.saveConfig (Config.mk "" "/x" [Repository.mk "n" "u" none]) (FileSys.mk [] []) =
      Except.error (ConfigErr.ioError (IoErr.invalidPath "")) :=
  (save_unset_fails (Config.mk "" "/x" [Repository.mk "n" "u" none]) (FileSys.mk [] [])
    (by decide)).1

/-- Counterexample for C8 as frozen: the saved content is the plain
`toml::to_string` rendering, which differs from the pretty rendering
`dump` (`Config::to_string`, i.e. `toml::to_string_pretty`) produces. -/
theorem save_not_pretty_cex :
    Config.saveConfig (Config.mk "cfg.toml" "/h/sources" []) (FileSys.mk [] []) =
      Except.ok (FileSys.mk [("cfg.toml", tomlToString (Config.mk "cfg.toml" "/h/sources" []))] []) ∧
    tomlToString (Config.mk "cfg.toml" "/h/sources" []) ≠
      Config.toString (Config.mk "cfg.toml" "/h/sources" []) :=
  ⟨rfl, by decide⟩

/-- C8 (amended): with `config_location` set, save serialises with the
plain serialiser — not the pretty one dump uses, though both parse back
to the same document — and writes the text to `config_location`, fully
overwriting the file there. -/
theorem save_writes_basic (c : Config) (fs : FileSys) (h : c.config_location ≠ "") :
    Config.saveConfig c fs =
      Except.ok { fs with files := (normPath c.config_location, tomlToString c) :: fs.files } ∧
    lookupFile (normPath c.config_location)
      ((normPath c.config_location, tomlToString c) :: fs.files) = some (tomlToString c) ∧
    tomlFromStr (tomlToString c) = { c with config_location := "" } ∧
    tomlFromStr (Config.toString c) = { c with config_location := "" } ∧
    tomlToString c ≠ Config.toString c := by
  refine ⟨by simp [Config.saveConfig, writeFile, h], ?_, rfl, rfl, by
    simp [tomlToString, Config.toString, tomlToStringPretty]⟩
  simp [lookupFile, List.find?_cons_of_pos]

/-- Witness for C8's amended statement at a concrete inventory. -/
theorem save_writes_basic_w :
    Config.saveConfig (Config.mk "a/cfg.toml" "/s" [Repository.mk "r" "u" none])
        (FileSys.mk [] ["a"]) =
      Except.ok (FileSys.mk
        [("a/cfg.toml", tomlToString (Config.mk "a/cfg.toml" "/s" [Repository.mk "r" "u" none]))]
        ["a"]) := by
  have h := (save_writes_basic (Config.mk "a/cfg.toml" "/s" [Repository.mk "r" "u" none])
    (FileSys.mk [] ["a"]) (by decide)).1
  simpa using h

/-- Counterexample for C5 as frozen: the empty path carries no file, yet
loading it does not succeed — `fs::write("")` fails and the source's
`expect` panics rather than returning. -/
theorem load_fresh_cex :
    pathExists "" (FileSys.mk [] []) = false ∧
    (Config.readConfig (Config.new "/h") "" (FileSys.mk [] [])).isOk = false :=
  ⟨rfl, rfl⟩

/-- C5 (amended): for every nonempty path `P` with nothing at `P` and no
existing regular file occupying an ancestor of `P`'s parent chain,
loading `P` into a default inventory succeeds, creates every parent
directory of `P`, writes to `P` a file whose parse yields the default
inventory, and sets `config_location = P`. -/
theorem load_fresh (home P : String) (fs : FileSys)
    (h1 : pathExists P fs = false) (h2 : P ≠ "")
    (h3 : ∀ a ∈ ancestors ((parentPath P).getD P), lookupFile a fs.files = none) :
    Config.readConfig (Config.new home) P fs =
      Except.ok ({ Config.new home with config_location := P },
        FileSys.mk ((normPath P, tomlToString (Config.new home)) :: fs.files)
          (ancestors ((parentPath P).getD P) ++ fs.dirs)) ∧
    (∀ d ∈ ancestors ((parentPath P).getD P),
        d ∈ ancestors ((parentPath P).getD P) ++ fs.dirs) ∧
    tomlFromStr (tomlToString (Config.new home)) = Config.new home := by
  have hcd : createDirAll ((parentPath P).getD P) fs =
      Except.ok (FileSys.mk fs.files (ancestors ((parentPath P).getD P) ++ fs.dirs)) := by
    unfold createDirAll
    rw [if_neg]
    intro hany
    rw [List.any_eq_true] at hany
    obtain ⟨a, ha, hsome⟩ := hany
    rw [h3 a ha] at hsome
    simp at hsome
  have hw : writeFile P (tomlToString (Config.new home))
      (FileSys.mk fs.files (ancestors ((parentPath P).getD P) ++ fs.dirs)) =
      Except.ok (FileSys.mk ((normPath P, tomlToString (Config.new home)) :: fs.files)
        (ancestors ((parentPath P).getD P) ++ fs.dirs)) := by
    unfold writeFile
    rw [if_neg h2]
  refine ⟨?_, fun d hd => List.mem_append_left _ hd, rfl⟩
  unfold Config.readConfig
  rw [if_neg (by simp [h1])]
  simp only [hcd, hw]

/-- Witness for C5's amended statement on a fresh two-component path. -/
theorem load_fresh_w :
    pathExists "a/b" (FileSys.mk [] []) = false ∧
    Config.readConfig (Config.new "/h") "a/b" (FileSys.mk [] []) =
      Except.ok ({ Config.new "/h" with config_location := "a/b" },
        FileSys.mk [(normPath "a/b", tomlToString (Config.new "/h"))]
          (ancestors ((parentPath "a/b").getD "a/b") ++ [])) :=
  ⟨by decide, (load_fresh "/h" "a/b" (FileSys.mk [] []) (by decide) (by decide) (by decide)).1⟩


/-- Splitting distributes over a separator, for any partial component
accumulated so far. -/
theorem compsAux_append_slash (xs : List Char) :
    ∀ (acc ys : List Char),
      compsAux acc (xs ++ '/' :: ys) = compsAux acc xs ++ compsAux [] ys := by
  induction xs with
  | nil =>
    intro acc ys
    by_cases h : acc = [] <;> simp [compsAux, h]
  | cons x xs ih =>
    intro acc ys
    by_cases hx : x = '/'
    · subst hx
      by_cases h : acc = [] <;> simp [compsAux, h, ih]
    · simp [compsAux, hx, ih]

/-- Component splitting across a separator. -/
theorem comps_append_slash (xs ys : List Char) :
    comps (xs ++ '/' :: ys) = comps xs ++ comps ys := by
  rw [comps, comps, comps, compsAux_append_slash]

/-- The empty path has no components. -/
theorem comps_nil : comps [] = [] := rfl

/-- A leading separator adds no component. -/
theorem comps_slash_cons (ys : List Char) : comps ('/' :: ys) = comps ys := by
  simp [comps, compsAux]

/-- String concatenation concatenates the underlying character lists. -/
theorem strData_append (a b : String) : (a ++ b).data = a.data ++ b.data := rfl

/-- The characters of `a ++ "/" ++ b`. -/
theorem data_slash_cons (a b : String) : (a ++ "/" ++ b).data = a.data ++ '/' :: b.data := by
  rw [strData_append, strData_append]
  rw [List.append_assoc]
  rfl

/-- The characters of `a ++ "/"`. -/
theorem data_trailing_slash (a : String) : (a ++ "/").data = a.data ++ '/' :: [] := rfl

/-- Components of a separator-joined pair of strings. -/
theorem comps_str_append (a b : String) :
    comps (a ++ "/" ++ b).data = comps a.data ++ comps b.data := by
  rw [data_slash_cons, comps_append_slash]

/-- A trailing separator leaves the components unchanged. -/
theorem comps_str_trailing (a : String) :
    comps (a ++ "/").data = comps a.data := by
  rw [data_trailing_slash, comps_append_slash, comps_nil, List.append_nil]

/-- Absoluteness is decided before the first separator, so tails beyond
it do not matter. -/
theorem isAbsL_append_slash (xs a b : List Char) :
    isAbsL (xs ++ '/' :: a) = isAbsL (xs ++ '/' :: b) := by
  cases xs <;> simp [isAbsL]

/-- String form of the previous lemma. -/
theorem isAbsL_str (s t u : String) :
    isAbsL (s ++ "/" ++ t).data = isAbsL (s ++ "/" ++ u).data := by
  rw [data_slash_cons, data_slash_cons]
  exact isAbsL_append_slash s.data t.data u.data

/-- `pathEq` is reflexive. -/
theorem pathEq_refl (p : String) : pathEq p p := ⟨rfl, rfl⟩

/-- The string the code checks and fetches in, `S/C//n`, denotes the
same directory as the spec's `S/C/n`. -/
theorem pathEq_double_slash (s c n : String) :
    pathEq (s ++ "/" ++ c ++ "/" ++ "/" ++ n) (s ++ "/" ++ c ++ "/" ++ n) := by
  constructor
  · rw [comps_str_append (s ++ "/" ++ c ++ "/") n, comps_str_append (s ++ "/" ++ c) n,
      comps_str_trailing (s ++ "/" ++ c)]
  · have h1 : (s ++ "/" ++ c ++ "/" ++ "/" ++ n).data =
        (s ++ "/" ++ (c ++ "/" ++ "/" ++ n)).data := by
      simp [strData_append, List.append_assoc]
    have h2 : (s ++ "/" ++ c ++ "/" ++ n).data =
        (s ++ "/" ++ (c ++ "/" ++ n)).data := by
      simp [strData_append, List.append_assoc]
    rw [h1, h2]
    exact isAbsL_str s (c ++ "/" ++ "/" ++ n) (c ++ "/" ++ n)

/-- The string the code clones in, `S/C/` (trailing separator), denotes
the same directory as the spec's parent `S/C`. -/
theorem pathEq_trailing_slash (s c : String) :
    pathEq (s ++ "/" ++ c ++ "/") (s ++ "/" ++ c) := by
  constructor
  · rw [comps_str_trailing (s ++ "/" ++ c)]
  · have h1 : (s ++ "/" ++ c ++ "/").data =
        (s ++ "/" ++ (c ++ "/")).data := by
      simp [strData_append, List.append_assoc]
    rw [h1]
    exact isAbsL_str s (c ++ "/") c

/-- C2 (confirmed): for every entry and source directory, the directory
the sync loop checks and fetches in denotes `S/C/n` (categorised) or is
literally `S/n` (uncategorised); when that directory is absent the
client is invoked with `-C <parent> clone url name` where the parent
denotes `S/C` (resp. is literally `S`), and when present with
`-C <target> fetch --all`. -/
theorem sync_layout (git : List String → Int) (s : String) (r : Repository) (fs : FileSys) :
    pathEq (fullpathOf s r) (specTarget s r) ∧
    pathEq (pathOf s r) (specParent s r) ∧
    (fs.dirs.contains (normPath (fullpathOf s r)) = true →
      gitCalls (fetchOne git s fs r).2 = [["-C", fullpathOf s r, "fetch", "--all"]]) ∧
    (fs.dirs.contains (normPath (fullpathOf s r)) = false →
      gitCalls (fetchOne git s fs r).2 = [["-C", pathOf s r, "clone", r.url, r.name]]) := by
  refine ⟨?_, ?_, ?_, ?_⟩
  · cases hcat : r.category with
    | none =>
        simp only [fullpathOf, pathOf, specTarget, hcat]
        exact pathEq_refl _
    | some cs =>
        simp only [fullpathOf, pathOf, specTarget, hcat]
        exact pathEq_double_slash s cs r.name
  · cases hcat : r.category with
    | none =>
        simp only [pathOf, specParent, hcat]
        exact pathEq_refl _
    | some cs =>
        simp only [pathOf, specParent, hcat]
        exact pathEq_trailing_slash s cs
  · intro h
    unfold fetchOne
    rw [if_pos h]
    simp [gitCalls, fetchArgv]
  · intro h
    unfold fetchOne
    rw [if_neg (by rw [h]; simp)]
    cases hcd : createDirAll (pathOf s r) fs <;> simp [hcd, gitCalls, cloneArgv]

/-- Witness for C2 at a concrete categorised entry with the target
directory absent: the clone invocation and its arguments. -/
theorem sync_layout_w :
    gitCalls (fetchOne (fun _ => (0 : Int)) "s" (FileSys.mk [] [])
        (Repository.mk "r" "u" (some "c"))).2 =
      [["-C", pathOf "s" (Repository.mk "r" "u" (some "c")), "clone", "u", "r"]] :=
  (sync_layout (fun _ => (0 : Int)) "s" (Repository.mk "r" "u" (some "c"))
    (FileSys.mk [] [])).2.2.2 (by decide)

/-- Extracting git calls distributes over event concatenation. -/
theorem gitCalls_append (a b : List Event) :
    gitCalls (a ++ b) = gitCalls a ++ gitCalls b := by
  simp [gitCalls]

/-- One loop iteration makes exactly one git invocation: a fetch when
the target directory exists, a clone otherwise — whatever errors the
directory preparation produced. -/
theorem gitCalls_fetchOne (git : List String → Int) (s : String) (fs : FileSys)
    (r : Repository) :
    gitCalls (fetchOne git s fs r).2 =
      (if fs.dirs.contains (normPath (fullpathOf s r)) then [fetchArgv s r]
       else [cloneArgv s r]) := by
  unfold fetchOne
  by_cases h : fs.dirs.contains (normPath (fullpathOf s r))
  · rw [if_pos h, if_pos h]
    simp [gitCalls]
  · rw [if_neg h, if_neg h]
    cases hcd : createDirAll (pathOf s r) fs <;> simp [hcd, gitCalls]

/-- The loop makes exactly one invocation per entry, in declared order,
each the fetch or clone call for that entry. -/
theorem fetchLoop_forall2 (git : List String → Int) (s : String) :
    ∀ (rs : List Repository) (fs : FileSys),
      List.Forall₂ (fun r args => args = fetchArgv s r ∨ args = cloneArgv s r)
        rs (gitCalls (fetchLoop git s fs rs).2) := by
  intro rs
  induction rs with
  | nil =>
    intro fs
    exact List.Forall₂.nil
  | cons r rs ih =>
    intro fs
    rw [fetchLoop]
    rw [gitCalls_append, gitCalls_fetchOne]
    by_cases h : fs.dirs.contains (normPath (fullpathOf s r))
    · rw [if_pos h]
      exact List.Forall₂.cons (Or.inl rfl) (ih _)
    · rw [if_neg h]
      exact List.Forall₂.cons (Or.inr rfl) (ih _)

/-- C6 (confirmed): for every external client (any exit codes) and any
filesystem, sync invokes the client exactly once per entry, in declared
order — so no per-entry failure stops later entries — and it reports
directory-preparation errors to stderr while continuing: both the
initial `source_dir` creation failure and a per-entry category-directory
failure leave their stderr message among the events of a run that still
reaches the entry's invocation. `fetchRepos` is total, so the engine
returns after processing all entries. -/
theorem sync_resilience (git : List String → Int) (c : Config) (fs : FileSys) :
    List.Forall₂ (fun r args => args = fetchArgv c.source_dir r ∨ args = cloneArgv c.source_dir r)
      c.repositories (gitCalls (fetchRepos git c fs).2) ∧
    (∀ e, createDirAll c.source_dir fs = Except.error e →
      Event.errMsg e.msg ∈ (fetchRepos git c fs).2) ∧
    (∀ (fs2 : FileSys) (r : Repository) (e : IoErr),
      fs2.dirs.contains (normPath (fullpathOf c.source_dir r)) = false →
      createDirAll (pathOf c.source_dir r) fs2 = Except.error e →
      Event.errMsg e.msg ∈ (fetchOne git c.source_dir fs2 r).2) := by
  refine ⟨?_, ?_, ?_⟩
  · unfold fetchRepos
    cases hcd : createDirAll c.source_dir fs with
    | error e =>
        have hg : gitCalls (Event.errMsg e.msg ::
            (fetchLoop git c.source_dir fs c.repositories).2) =
            gitCalls (fetchLoop git c.source_dir fs c.repositories).2 := by
          simp [gitCalls]
        rw [hg]
        exact fetchLoop_forall2 git c.source_dir c.repositories fs
    | ok fs1 =>
        exact fetchLoop_forall2 git c.source_dir c.repositories fs1
  · intro e he
    unfold fetchRepos
    rw [he]
    simp
  · intro fs2 r e hdir hcd
    unfold fetchOne
    rw [if_neg (by rw [hdir]; simp), hcd]
    simp

/-- Witness for C6: a run in which `source_dir` preparation fails (a
file obstructs it) and the client exits non-zero still reports the
error and reaches the single entry's clone invocation. -/
theorem sync_resilience_w :
    Event.errMsg (IoErr.obstructed "s").msg ∈
      (fetchRepos (fun _ => (1 : Int))
        (Config.mk "" "s" [Repository.mk "r" "u" (some "c")])
        (FileSys.mk [("s", TomlText.basic (ConfigDoc.mk "x" []))] [])).2 ∧
    (gitCalls (fetchRepos (fun _ => (1 : Int))
        (Config.mk "" "s" [Repository.mk "r" "u" (some "c")])
        (FileSys.mk [("s", TomlText.basic (ConfigDoc.mk "x" []))] [])).2).length = 1 :=
  ⟨(sync_resilience (fun _ => (1 : Int))
      (Config.mk "" "s" [Repository.mk "r" "u" (some "c")])
      (FileSys.mk [("s", TomlText.basic (ConfigDoc.mk "x" []))] [])).2.1
      (IoErr.obstructed "s") rfl,
   by
    have h := (sync_resilience (fun _ => (1 : Int))
      (Config.mk "" "s" [Repository.mk "r" "u" (some "c")])
      (FileSys.mk [("s", TomlText.basic (ConfigDoc.mk "x" []))] [])).1
    simpa using h.length_eq.symm⟩

/-- C9 (confirmed): long and short flags set the command eagerly and
take priority (they overwrite whatever command is current); a command
verb is interpreted only when no command has been chosen at the point
it is encountered (with one chosen, the verb token is skipped; with
none, `fetch`/`list` choose it); and when the whole stream chooses no
command, `State::new` falls back to Help. -/
theorem cmd_selection :
    (∀ (s : State) (rest : List String),
      parseLoop s ("--help" :: rest) = parseLoop { s with cmd := some Cmd.Help } rest) ∧
    (∀ (s : State) (rest : List String),
      parseLoop s ("--dump-config" :: rest) =
        parseLoop { s with cmd := some Cmd.DumpConfig } rest) ∧
    (∀ (s : State) (rest : List String),
      parseLoop s ("-h" :: rest) = parseLoop { s with cmd := some Cmd.Help } rest) ∧
    (∀ (s : State) (rest : List String) (c : Cmd), s.cmd = some c →
      parseLoop s ("add" :: rest) = parseLoop s rest ∧
      parseLoop s ("fetch" :: rest) = parseLoop s rest ∧
      parseLoop s ("list" :: rest) = parseLoop s rest) ∧
    (∀ (s : State) (rest : List String), s.cmd = none →
      parseLoop s ("fetch" :: rest) = parseLoop { s with cmd := some Cmd.Fetch } rest ∧
      parseLoop s ("list" :: rest) = parseLoop { s with cmd := some Cmd.List } rest) ∧
    (∀ (home : String) (args : List String),
      (parseLoop (initState home) args).cmd = none →
      (State.new home args).cmd = some Cmd.Help) ∧
    (∀ (home : String) (args : List String), (State.new home args).cmd ≠ none) := by
  refine ⟨?_, ?_, ?_, ?_, ?_, ?_, ?_⟩
  · intro s rest
    rw [parseLoop.eq_def]
    rfl
  · intro s rest
    rw [parseLoop.eq_def]
    rfl
  · intro s rest
    rw [parseLoop.eq_def]
    rfl
  · intro s rest c h
    refine ⟨?_, ?_, ?_⟩ <;>
      (rw [parseLoop.eq_def]
       simp only [h]
       rfl)
  · intro s rest h
    refine ⟨?_, ?_⟩ <;>
      (rw [parseLoop.eq_def]
       simp only [h]
       rfl)
  · intro home args h
    simp [State.new, h]
  · intro home args
    simp [State.new]

/-- Witness for C9: a chosen command makes a later verb inert, flags
override it, and an empty stream falls back to Help. -/
theorem cmd_selection_w :
    parseLoop (State.mk (some Cmd.Fetch) none none none "p") ["add"] =
      parseLoop (State.mk (some Cmd.Fetch) none none none "p") [] ∧
    parseLoop (State.mk (some Cmd.Fetch) none none none "p") ["--help"] =
      parseLoop (State.mk (some Cmd.Help) none none none "p") [] ∧
    (State.new "/h" []).cmd = some Cmd.Help :=
  ⟨(cmd_selection.2.2.2.1 (State.mk (some Cmd.Fetch) none none none "p") [] Cmd.Fetch rfl).1,
   cmd_selection.1 (State.mk (some Cmd.Fetch) none none none "p") [],
   cmd_selection.2.2.2.2.2.1 "/h" [] rfl⟩
